import Mathlib

/-!
# Verification of the opqtools grid generator

A shallow embedding of `grid-generator.py` and proofs about it.

The program computes a grid of geographic points covering a bounding box by
repeated great-circle stepping on a spherical earth, then converts the point
matrix into GeoJSON multi-point or multi-polygon documents.

Python floats are modelled by real numbers, so the trigonometric identities
hold exactly.  The self-recursive walks `get_points_south` / `get_points_east`
do not terminate for all real inputs, so they are embedded with an explicit
fuel parameter and return `Option`: `some` exactly on the terminating runs.
Points are pairs `(lon, lat)` in decimal degrees, matching the
`[lon_start, lat_start]` pairs the source appends.
-/

namespace GridGen

noncomputable section

/-- Radius of earth in km (source line 6). -/
def RADIUS_OF_EARTH : ℝ := 6371.0

/-- Python's `math.radians`: degrees to radians. -/
def radians (x : ℝ) : ℝ := x * Real.pi / 180

/-- Python's `math.degrees`: radians to degrees. -/
def degrees (x : ℝ) : ℝ := x * 180 / Real.pi

/-- Bearing constant (source line 7). -/
def NORTH : ℝ := radians 0

/-- Bearing constant (source line 8). -/
def EAST : ℝ := radians 90

/-- Bearing constant (source line 9). -/
def SOUTH : ℝ := radians 180

/-- Bearing constant (source line 10). -/
def WEST : ℝ := radians 270

/-- Python's `math.atan2 y x`: the angle of the point `(x, y)`. -/
def atan2 (y x : ℝ) : ℝ :=
  if 0 < x then Real.arctan (y / x)
  else if x < 0 then
    (if 0 ≤ y then Real.arctan (y / x) + Real.pi else Real.arctan (y / x) - Real.pi)
  else (if 0 < y then Real.pi / 2 else if y < 0 then -(Real.pi / 2) else 0)

/-- Embeds `angular_distance` (source lines 13-15). -/
def angular_distance (distance : ℝ) : ℝ := distance / RADIUS_OF_EARTH

/-- Embeds `get_next_lat` (source lines 18-21); `lat` and `bearing` in radians. -/
def get_next_lat (lat distance bearing : ℝ) : ℝ :=
  Real.arcsin ((Real.sin lat * Real.cos (angular_distance distance)) +
    (Real.cos lat * Real.sin (angular_distance distance) * Real.cos bearing))

/-- Embeds `get_next_lon` (source lines 24-29); angles in radians. -/
def get_next_lon (lat1 lat2 lon distance bearing : ℝ) : ℝ :=
  lon + atan2 (Real.sin bearing * Real.sin (angular_distance distance) * Real.cos lat1)
    (Real.cos (angular_distance distance) - Real.sin lat1 * Real.sin lat2)

/-- Embeds `get_next_lat_lon` (source lines 32-38); degree interface, returns `(lon2, lat2)`. -/
def get_next_lat_lon (lat lon distance bearing : ℝ) : ℝ × ℝ :=
  let lat_rads := radians lat
  let lon_rads := radians lon
  let lat2 := get_next_lat lat_rads distance bearing
  let lon2 := get_next_lon lat_rads lat2 lon_rads distance bearing
  (degrees lon2, degrees lat2)

/-- Embeds `get_points_south` (source lines 41-51), with fuel.  Appends `(lon, lat)`
pairs to the accumulator `points`; `none` when the fuel runs out. -/
def get_points_south (fuel : ℕ) (lat_start lon_start lat_end step_size : ℝ)
    (points : List (ℝ × ℝ)) : Option (List (ℝ × ℝ)) :=
  match fuel with
  | 0 => none
  | fuel + 1 =>
    let points2 := points ++ [(lon_start, lat_start)]
    if lat_start < lat_end then some points2
    else
      let p := get_next_lat_lon lat_start lon_start step_size SOUTH
      get_points_south fuel p.2 p.1 lat_end step_size points2

/-- Embeds `get_points_east` (source lines 54-64), with fuel. -/
def get_points_east (fuel : ℕ) (lat_start lon_start lon_end step_size : ℝ)
    (points : List (ℝ × ℝ)) : Option (List (ℝ × ℝ)) :=
  match fuel with
  | 0 => none
  | fuel + 1 =>
    let points2 := points ++ [(lon_start, lat_start)]
    if lon_start > lon_end then some points2
    else
      let p := get_next_lat_lon lat_start lon_start step_size EAST
      get_points_east fuel p.2 p.1 lon_end step_size points2

/-- The `for lon, lat in points_south` loop of `get_points_south_then_east`
(source lines 76-77): one eastward row per anchor point. -/
def rows_east (fuel : ℕ) (lon_end step_size : ℝ) :
    List (ℝ × ℝ) → Option (List (List (ℝ × ℝ)))
  | [] => some []
  | q :: qs =>
    match get_points_east fuel q.2 q.1 lon_end step_size [],
        rows_east fuel lon_end step_size qs with
    | some row, some rest => some (row :: rest)
    | _, _ => none

/-- Embeds `get_points_south_then_east` (source lines 67-79), with fuel. -/
def get_points_south_then_east (fuel : ℕ) (lat_start lon_start lat_end lon_end step_size : ℝ) :
    Option (List (List (ℝ × ℝ))) :=
  match get_points_south fuel lat_start lon_start lat_end step_size [] with
  | none => none
  | some points_south => rows_east fuel lon_end step_size points_south

/-- The `for lon, lat in points_east` loop of `get_points_east_then_south`
(source lines 91-92): one southward column per anchor point. -/
def rows_south (fuel : ℕ) (lat_end step_size : ℝ) :
    List (ℝ × ℝ) → Option (List (List (ℝ × ℝ)))
  | [] => some []
  | q :: qs =>
    match get_points_south fuel q.2 q.1 lat_end step_size [],
        rows_south fuel lat_end step_size qs with
    | some row, some rest => some (row :: rest)
    | _, _ => none

/-- Embeds `get_points_east_then_south` (source lines 82-94), with fuel. -/
def get_points_east_then_south (fuel : ℕ) (lat_start lon_start lat_end lon_end step_size : ℝ) :
    Option (List (List (ℝ × ℝ))) :=
  match get_points_east fuel lat_start lon_start lon_end step_size [] with
  | none => none
  | some points_east => rows_south fuel lat_end step_size points_east

/-- Written from the spec's words for the refinement claim about the stepper:
angular distance `ad = distanceKm / 6371.0`,
`lat2 = asin(sin lat * cos ad + cos lat * sin ad * cos bearing)`,
`lon2 = lon + atan2 (sin bearing * sin ad * cos lat) (cos ad - sin lat * sin lat2)`,
degree-to-radian conversion on input, radian-to-degree conversion on output.
Returns `(lat2, lon2)` in degrees. -/
def stepSpec (lat lon d b : ℝ) : ℝ × ℝ :=
  let ad := d / 6371.0
  let latR := lat * Real.pi / 180
  let lonR := lon * Real.pi / 180
  let latNew := Real.arcsin (Real.sin latR * Real.cos ad + Real.cos latR * Real.sin ad * Real.cos b)
  let lonNew := lonR + atan2 (Real.sin b * Real.sin ad * Real.cos latR)
    (Real.cos ad - Real.sin latR * Real.sin latNew)
  (latNew * 180 / Real.pi, lonNew * 180 / Real.pi)

end

/-- Embeds `get_square_at_rc` (source lines 97-102); generic in the entry
type.  Out-of-range indexing is mapped to `default`, where the source raises
`IndexError`; every theorem below therefore uses this function only under
hypotheses (or at concrete inputs) that keep all four accesses in range, so
the collapsed error path is never load-bearing. -/
def get_square_at_rc {α : Type} [Inhabited α] (row col : ℕ) (points : List (List α)) : List α :=
  [(points.getD row []).getD col default, (points.getD (row + 1) []).getD col default,
   (points.getD (row + 1) []).getD (col + 1) default, (points.getD row []).getD (col + 1) default]

/-- Embeds `get_polygons` (source lines 105-115): one quad for every point except
points in the last column and row, rows outer, columns inner. -/
def get_polygons {α : Type} [Inhabited α] (points : List (List α)) : List (List α) :=
  (List.range (points.length - 1)).flatMap fun r =>
    (List.range ((points.getD r []).length - 1)).map fun c => get_square_at_rc r c points

/-- The GeoJSON documents emitted by the program, minus string serialization
(out of scope per the spec): a `MultiPoint` or a `MultiPolygon` with its
`coordinates` payload. -/
inductive GeoJsonDoc (α : Type) : Type where
  | multiPoint (coordinates : List α)
  | multiPolygon (coordinates : List (List (List α)))
  deriving DecidableEq

/-- Embeds `get_geo_json_points` (source lines 118-126): the element-by-element
double loop appending every point of every row. -/
def get_geo_json_points {α : Type} (points : List (List α)) : GeoJsonDoc α :=
  GeoJsonDoc.multiPoint
    (points.foldl (fun coords r => r.foldl (fun coords2 c => coords2 ++ [c]) coords) [])

/-- Embeds `get_geo_json_polys` (source lines 129-132): wraps `get_polygons` output
in a singleton list, as `{'coordinates': [polys]}` does. -/
def get_geo_json_polys {α : Type} [Inhabited α] (points : List (List α)) : GeoJsonDoc α :=
  GeoJsonDoc.multiPolygon [get_polygons points]

/-! ## Basic facts about the conversion helpers and the bearing constants -/

open Real

theorem radians_degrees (x : ℝ) : radians (degrees x) = x := by
  unfold radians degrees
  field_simp

theorem degrees_radians (x : ℝ) : degrees (radians x) = x := by
  unfold radians degrees
  field_simp

theorem radians_lt_radians {a b : ℝ} : radians a < radians b ↔ a < b := by
  unfold radians
  rw [div_lt_div_iff_of_pos_right (by norm_num : (0:ℝ) < 180)]
  exact mul_lt_mul_right Real.pi_pos

theorem radians_le_radians {a b : ℝ} : radians a ≤ radians b ↔ a ≤ b := by
  constructor
  · intro h
    by_contra hab
    exact absurd (radians_lt_radians.2 (lt_of_not_le hab)) (not_lt.2 h)
  · intro h
    rcases eq_or_lt_of_le h with h | h
    · exact le_of_eq (by rw [h])
    · exact le_of_lt (radians_lt_radians.2 h)

theorem radians_zero : radians 0 = 0 := by unfold radians; ring

theorem NORTH_eq : NORTH = 0 := by unfold NORTH; exact radians_zero

theorem EAST_eq : EAST = Real.pi / 2 := by
  unfold EAST radians
  ring

theorem SOUTH_eq : SOUTH = Real.pi := by
  unfold SOUTH radians
  field_simp

theorem atan2_zero_of_nonneg {x : ℝ} (hx : 0 ≤ x) : atan2 0 x = 0 := by
  unfold atan2
  rcases lt_or_eq_of_le hx with h | h
  · rw [if_pos h, zero_div, Real.arctan_zero]
  · rw [if_neg (by rw [← h]; exact lt_irrefl 0), if_neg (by rw [← h]; exact lt_irrefl 0),
      if_neg (lt_irrefl 0), if_neg (lt_irrefl 0)]

theorem atan2_pos_pos {y x : ℝ} (hx : 0 < x) : atan2 y x = Real.arctan (y / x) := by
  unfold atan2
  rw [if_pos hx]

theorem radians_ninety : radians 90 = Real.pi / 2 := by unfold radians; ring

theorem radians_neg_ninety : radians (-90) = -(Real.pi / 2) := by unfold radians; ring

theorem get_next_lat_lon_snd (lat lon d b : ℝ) :
    (get_next_lat_lon lat lon d b).2 = degrees (get_next_lat (radians lat) d b) := rfl

theorem get_next_lat_lon_fst (lat lon d b : ℝ) :
    (get_next_lat_lon lat lon d b).1 =
      degrees (get_next_lon (radians lat) (get_next_lat (radians lat) d b) (radians lon) d b) :=
  rfl

/-- Heading due south with both the start and the target of the latitude move
inside `[-π/2, π/2]`, the new (radian) latitude is exactly the old one minus
the angular distance. -/
theorem get_next_lat_south (latR d : ℝ)
    (h3 : -(Real.pi / 2) ≤ latR - angular_distance d)
    (h4 : latR - angular_distance d ≤ Real.pi / 2) :
    get_next_lat latR d SOUTH = latR - angular_distance d := by
  unfold get_next_lat
  have h : Real.sin latR * Real.cos (angular_distance d) +
      Real.cos latR * Real.sin (angular_distance d) * Real.cos SOUTH =
      Real.sin (latR - angular_distance d) := by
    rw [SOUTH_eq, Real.cos_pi, Real.sin_sub]; ring
  rw [h]
  exact Real.arcsin_sin h3 h4

/-! ## Claims about the geodesic stepper -/

/-- C1: the stepper returns the point with
`lat2 = asin(sin lat * cos ad + cos lat * sin ad * cos b)` and
`lon2 = lon + atan2 (sin b * sin ad * cos lat) (cos ad - sin lat * sin lat2)`
where `ad = d / 6371.0`, all trigonometry in radians with degree conversion
on input and output. -/
theorem stepper_formula (lat lon d b : ℝ) :
    (get_next_lat_lon lat lon d b).2 = (stepSpec lat lon d b).1 ∧
    (get_next_lat_lon lat lon d b).1 = (stepSpec lat lon d b).2 :=
  ⟨rfl, rfl⟩

/-- C8: stepping with distance 0 from any point with latitude in `[-90, 90]`
returns the input point, for every bearing. -/
theorem step_zero_identity (lat lon b : ℝ) (h1 : -90 ≤ lat) (h2 : lat ≤ 90) :
    get_next_lat_lon lat lon 0 b = (lon, lat) := by
  have had : angular_distance 0 = 0 := by
    unfold angular_distance; simp
  have hlatR1 : -(Real.pi / 2) ≤ radians lat := by
    rw [← radians_neg_ninety]; exact radians_le_radians.2 h1
  have hlatR2 : radians lat ≤ Real.pi / 2 := by
    rw [← radians_ninety]; exact radians_le_radians.2 h2
  have hlat2 : get_next_lat (radians lat) 0 b = radians lat := by
    unfold get_next_lat
    rw [had]
    simp only [Real.sin_zero, Real.cos_zero, mul_zero, zero_mul, mul_one, add_zero]
    exact Real.arcsin_sin hlatR1 hlatR2
  have hfst : (get_next_lat_lon lat lon 0 b).1 = lon := by
    rw [get_next_lat_lon_fst, hlat2]
    unfold get_next_lon
    rw [had]
    simp only [Real.sin_zero, Real.cos_zero, mul_zero, zero_mul]
    have hx : 0 ≤ 1 - Real.sin (radians lat) * Real.sin (radians lat) := by
      nlinarith [Real.neg_one_le_sin (radians lat), Real.sin_le_one (radians lat)]
    rw [atan2_zero_of_nonneg hx, add_zero, degrees_radians]
  have hsnd : (get_next_lat_lon lat lon 0 b).2 = lat := by
    rw [get_next_lat_lon_snd, hlat2, degrees_radians]
  exact Prod.ext hfst hsnd

/-- C9: stepping due south by `d` and then due north by `d` returns to the
original latitude, provided neither move leaves the latitude band
`[-π/2, π/2]` (in radians): no pole is crossed. -/
theorem south_north_roundtrip (lat lon d : ℝ)
    (h1 : -(Real.pi / 2) ≤ radians lat) (h2 : radians lat ≤ Real.pi / 2)
    (h3 : -(Real.pi / 2) ≤ radians lat - angular_distance d)
    (h4 : radians lat - angular_distance d ≤ Real.pi / 2) :
    (get_next_lat_lon (get_next_lat_lon lat lon d SOUTH).2
      (get_next_lat_lon lat lon d SOUTH).1 d NORTH).2 = lat := by
  rw [get_next_lat_lon_snd, get_next_lat_lon_snd, get_next_lat_south _ _ h3 h4,
    radians_degrees]
  have h : get_next_lat (radians lat - angular_distance d) d NORTH = radians lat := by
    unfold get_next_lat
    have hs : Real.sin (radians lat - angular_distance d) * Real.cos (angular_distance d) +
        Real.cos (radians lat - angular_distance d) * Real.sin (angular_distance d) *
          Real.cos NORTH = Real.sin (radians lat) := by
      rw [NORTH_eq, Real.cos_zero, mul_one]
      rw [show radians lat = (radians lat - angular_distance d) + angular_distance d by ring,
        Real.sin_add]
      ring_nf
    rw [hs]
    exact Real.arcsin_sin h1 h2
  rw [h, degrees_radians]

/-- C9 witness at `lat = 0`, `lon = 0`, `d = 0`. -/
theorem south_north_roundtrip_witness :
    (get_next_lat_lon (get_next_lat_lon 0 0 0 SOUTH).2
      (get_next_lat_lon 0 0 0 SOUTH).1 0 NORTH).2 = 0 := by
  have hr : radians 0 = 0 := radians_zero
  have ha : angular_distance 0 = 0 := by unfold angular_distance; simp
  exact south_north_roundtrip 0 0 0
    (by rw [hr]; nlinarith [Real.pi_pos])
    (by rw [hr]; nlinarith [Real.pi_pos])
    (by rw [hr, ha]; nlinarith [Real.pi_pos])
    (by rw [hr, ha]; nlinarith [Real.pi_pos])

/-- C8 witness at `lat = 0`, `lon = 0`, bearing `0`. -/
theorem step_zero_identity_witness : get_next_lat_lon 0 0 0 0 = (0, 0) :=
  step_zero_identity 0 0 0 (by norm_num) (by norm_num)

/-! ## Structure of terminating walks -/

/-- Anatomy of a terminating southward walk: it extends the accumulator with
a non-empty block that starts at the start point, whose last element is the
only one south of the target latitude. -/
theorem get_points_south_spec :
    ∀ (fuel : ℕ) (lat lon lat_end step : ℝ) (acc res : List (ℝ × ℝ)),
    get_points_south fuel lat lon lat_end step acc = some res →
    ∃ mid p, res = acc ++ (mid ++ [p]) ∧ (mid ++ [p]).head? = some (lon, lat) ∧
      p.2 < lat_end ∧ ∀ q ∈ mid, lat_end ≤ q.2 := by
  intro fuel
  induction fuel with
  | zero =>
    intro lat lon lat_end step acc res h
    simp [get_points_south] at h
  | succ n ih =>
    intro lat lon lat_end step acc res h
    simp only [get_points_south] at h
    by_cases hlt : lat < lat_end
    · rw [if_pos hlt] at h
      refine ⟨[], (lon, lat), ?_, rfl, hlt, by simp⟩
      simp only [Option.some.injEq] at h
      rw [← h]
      simp
    · rw [if_neg hlt] at h
      obtain ⟨mid, p, hres, hhead, hp, hmid⟩ := ih _ _ _ _ _ _ h
      refine ⟨(lon, lat) :: mid, p, ?_, rfl, hp, ?_⟩
      · rw [hres]; simp
      · intro q hq
        rcases List.mem_cons.1 hq with hq | hq
        · rw [hq]; exact not_lt.1 hlt
        · exact hmid q hq

/-- Anatomy of a terminating eastward walk, symmetric to the southward one. -/
theorem get_points_east_spec :
    ∀ (fuel : ℕ) (lat lon lon_end step : ℝ) (acc res : List (ℝ × ℝ)),
    get_points_east fuel lat lon lon_end step acc = some res →
    ∃ mid p, res = acc ++ (mid ++ [p]) ∧ (mid ++ [p]).head? = some (lon, lat) ∧
      lon_end < p.1 ∧ ∀ q ∈ mid, q.1 ≤ lon_end := by
  intro fuel
  induction fuel with
  | zero =>
    intro lat lon lon_end step acc res h
    simp [get_points_east] at h
  | succ n ih =>
    intro lat lon lon_end step acc res h
    simp only [get_points_east] at h
    by_cases hlt : lon > lon_end
    · rw [if_pos hlt] at h
      refine ⟨[], (lon, lat), ?_, rfl, hlt, by simp⟩
      simp only [Option.some.injEq] at h
      rw [← h]
      simp
    · rw [if_neg hlt] at h
      obtain ⟨mid, p, hres, hhead, hp, hmid⟩ := ih _ _ _ _ _ _ h
      refine ⟨(lon, lat) :: mid, p, ?_, rfl, hp, ?_⟩
      · rw [hres]; simp
      · intro q hq
        rcases List.mem_cons.1 hq with hq | hq
        · rw [hq]; exact not_lt.1 hlt
        · exact hmid q hq

/-- A southward walk whose start latitude equals the target does not stop at
the start point: the strict stop condition fails, so a terminating run has a
non-empty tail after the start point. -/
theorem south_equal_start (fuel : ℕ) (lat lon step : ℝ) (res : List (ℝ × ℝ))
    (h : get_points_south fuel lat lon lat step [] = some res) :
    ∃ tail, res = (lon, lat) :: tail ∧ tail ≠ [] := by
  cases fuel with
  | zero => simp [get_points_south] at h
  | succ n =>
    simp only [get_points_south] at h
    rw [if_neg (lt_irrefl lat)] at h
    obtain ⟨mid, p, hres, hhead, hp, hmid⟩ := get_points_south_spec n _ _ _ _ _ _ h
    refine ⟨mid ++ [p], ?_, by simp⟩
    rw [hres]
    simp

/-- The eastward analogue of `south_equal_start`. -/
theorem east_equal_start (fuel : ℕ) (lat lon step : ℝ) (res : List (ℝ × ℝ))
    (h : get_points_east fuel lat lon lon step [] = some res) :
    ∃ tail, res = (lon, lat) :: tail ∧ tail ≠ [] := by
  cases fuel with
  | zero => simp [get_points_east] at h
  | succ n =>
    simp only [get_points_east] at h
    rw [if_neg (lt_irrefl lon)] at h
    obtain ⟨mid, p, hres, hhead, hp, hmid⟩ := get_points_east_spec n _ _ _ _ _ _ h
    refine ⟨mid ++ [p], ?_, by simp⟩
    rw [hres]
    simp

/-- C2: a terminating southward walk from an empty accumulator is non-empty,
its last point is strictly south of the target latitude and all earlier
points are at or north of it; symmetrically, a terminating eastward walk ends
strictly east of the target longitude with all earlier points at or west of
it. -/
theorem walk_overshoot (fs fe : ℕ) (latS lonS lat_end latE lonE lon_end step : ℝ)
    (rs re : List (ℝ × ℝ))
    (hs : get_points_south fs latS lonS lat_end step [] = some rs)
    (he : get_points_east fe latE lonE lon_end step [] = some re) :
    (rs ≠ [] ∧ ∃ mid p, rs = mid ++ [p] ∧ p.2 < lat_end ∧ ∀ q ∈ mid, lat_end ≤ q.2) ∧
    (re ≠ [] ∧ ∃ mid p, re = mid ++ [p] ∧ lon_end < p.1 ∧ ∀ q ∈ mid, q.1 ≤ lon_end) := by
  obtain ⟨mid, p, hres, hhead, hp, hmid⟩ := get_points_south_spec fs _ _ _ _ _ _ hs
  obtain ⟨mid', p', hres', hhead', hp', hmid'⟩ := get_points_east_spec fe _ _ _ _ _ _ he
  simp only [List.nil_append] at hres hres'
  constructor
  · exact ⟨by rw [hres]; simp, mid, p, hres, hp, hmid⟩
  · exact ⟨by rw [hres']; simp, mid', p', hres', hp', hmid'⟩

/-- C2 witness: concrete one-step walks (south from latitude 0 to target 1,
east from longitude 1 to target 0) that stop immediately. -/
theorem walk_overshoot_witness :
    (([((0:ℝ), (0:ℝ))] : List (ℝ × ℝ)) ≠ [] ∧
      ∃ mid p, ([((0:ℝ), (0:ℝ))] : List (ℝ × ℝ)) = mid ++ [p] ∧ p.2 < 1 ∧
        ∀ q ∈ mid, (1:ℝ) ≤ q.2) ∧
    (([((1:ℝ), (0:ℝ))] : List (ℝ × ℝ)) ≠ [] ∧
      ∃ mid p, ([((1:ℝ), (0:ℝ))] : List (ℝ × ℝ)) = mid ++ [p] ∧ (0:ℝ) < p.1 ∧
        ∀ q ∈ mid, q.1 ≤ 0) := by
  refine walk_overshoot 1 1 0 0 1 0 1 0 5 [((0:ℝ), (0:ℝ))] [((1:ℝ), (0:ℝ))] ?_ ?_
  · simp only [get_points_south]
    rw [if_pos (by norm_num : (0:ℝ) < 1)]
    simp
  · simp only [get_points_east]
    rw [if_pos (by norm_num : (1:ℝ) > 0)]
    simp

/-! ## Exact evaluation of concrete steps and walks

With step size `6371·π/3` km the angular distance is exactly `π/3`, so the
stepper takes exact 60-degree moves whose trigonometry evaluates in closed
form.  These evaluations drive the counterexamples below. -/

theorem ad_s3 : angular_distance (6371 * Real.pi / 3) = Real.pi / 3 := by
  unfold angular_distance RADIUS_OF_EARTH
  norm_num
  ring

theorem radians_neg_sixty : radians (-60) = -(Real.pi / 3) := by unfold radians; ring

theorem degrees_neg_pi_third : degrees (-(Real.pi / 3)) = -60 := by
  unfold degrees
  field_simp
  ring

theorem degrees_pi_third : degrees (Real.pi / 3) = 60 := by
  unfold degrees
  field_simp
  ring

theorem degrees_add (x y : ℝ) : degrees (x + y) = degrees x + degrees y := by
  unfold degrees; ring

theorem degrees_zero : degrees 0 = 0 := by unfold degrees; simp

theorem sqrt3_sq : Real.sqrt 3 * Real.sqrt 3 = 3 := Real.mul_self_sqrt (by norm_num)

theorem sqrt3_pos : 0 < Real.sqrt 3 := Real.sqrt_pos.2 (by norm_num)

theorem arctan_sqrt_three : Real.arctan (Real.sqrt 3) = Real.pi / 3 := by
  rw [← Real.tan_pi_div_three]
  exact Real.arctan_tan (by nlinarith [Real.pi_pos]) (by nlinarith [Real.pi_pos])

theorem arctan_two_sqrt_three_gt : Real.pi / 3 < Real.arctan (2 * Real.sqrt 3) := by
  rw [← arctan_sqrt_three]
  exact Real.arctan_strictMono (by nlinarith [sqrt3_pos])

theorem deg_arctan_two_sqrt_three_gt_sixty : 60 < degrees (Real.arctan (2 * Real.sqrt 3)) := by
  unfold degrees
  have h := arctan_two_sqrt_three_gt
  have hπ := Real.pi_pos
  rw [lt_div_iff₀ hπ]
  nlinarith

theorem deg_arctan_two_sqrt_three_pos : 0 < degrees (Real.arctan (2 * Real.sqrt 3)) :=
  lt_trans (by norm_num) deg_arctan_two_sqrt_three_gt_sixty

/-- One due-south step of `6371·π/3` km from latitude 0 moves to latitude
-60 and keeps the longitude. -/
theorem step_south_from_zero (lon : ℝ) :
    get_next_lat_lon 0 lon (6371 * Real.pi / 3) SOUTH = (lon, -60) := by
  have hlat : get_next_lat (radians 0) (6371 * Real.pi / 3) SOUTH = -(Real.pi / 3) := by
    unfold get_next_lat
    have harg : Real.sin (radians 0) * Real.cos (angular_distance (6371 * Real.pi / 3)) +
        Real.cos (radians 0) * Real.sin (angular_distance (6371 * Real.pi / 3)) *
          Real.cos SOUTH = Real.sin (-(Real.pi / 3)) := by
      rw [ad_s3, radians_zero, SOUTH_eq, Real.sin_zero, Real.cos_zero, Real.cos_pi,
        Real.sin_neg]
      ring
    rw [harg]
    exact Real.arcsin_sin (by nlinarith [Real.pi_pos]) (by nlinarith [Real.pi_pos])
  have hlon : get_next_lon (radians 0) (-(Real.pi / 3)) (radians lon)
      (6371 * Real.pi / 3) SOUTH = radians lon := by
    unfold get_next_lon
    rw [ad_s3, radians_zero, SOUTH_eq, Real.sin_pi, Real.sin_zero]
    rw [show (0:ℝ) * Real.sin (Real.pi / 3) * Real.cos 0 = 0 by ring]
    rw [show Real.cos (Real.pi / 3) - 0 * Real.sin (-(Real.pi / 3)) = 1 / 2 by
      rw [Real.cos_pi_div_three]; ring]
    rw [atan2_zero_of_nonneg (by norm_num)]
    ring
  have hfst : (get_next_lat_lon 0 lon (6371 * Real.pi / 3) SOUTH).1 = lon := by
    rw [get_next_lat_lon_fst, hlat, hlon, degrees_radians]
  have hsnd : (get_next_lat_lon 0 lon (6371 * Real.pi / 3) SOUTH).2 = -60 := by
    rw [get_next_lat_lon_snd, hlat, degrees_neg_pi_third]
  exact Prod.ext hfst hsnd

/-- One due-east step of `6371·π/3` km from latitude 0 moves the longitude
60 degrees east and keeps latitude 0. -/
theorem step_east_from_zero (lon : ℝ) :
    get_next_lat_lon 0 lon (6371 * Real.pi / 3) EAST = (lon + 60, 0) := by
  have hlat : get_next_lat (radians 0) (6371 * Real.pi / 3) EAST = 0 := by
    unfold get_next_lat
    have harg : Real.sin (radians 0) * Real.cos (angular_distance (6371 * Real.pi / 3)) +
        Real.cos (radians 0) * Real.sin (angular_distance (6371 * Real.pi / 3)) *
          Real.cos EAST = 0 := by
      rw [ad_s3, radians_zero, EAST_eq, Real.sin_zero, Real.cos_pi_div_two]
      ring
    rw [harg]
    exact Real.arcsin_zero
  have hlon : get_next_lon (radians 0) 0 (radians lon)
      (6371 * Real.pi / 3) EAST = radians lon + Real.pi / 3 := by
    unfold get_next_lon
    rw [ad_s3, radians_zero, EAST_eq, Real.sin_pi_div_two, Real.sin_zero]
    rw [show (1:ℝ) * Real.sin (Real.pi / 3) * Real.cos 0 = Real.sqrt 3 / 2 by
      rw [Real.sin_pi_div_three, Real.cos_zero]; ring]
    rw [show Real.cos (Real.pi / 3) - 0 * 0 = 1 / 2 by
      rw [Real.cos_pi_div_three]; ring]
    rw [atan2_pos_pos (by norm_num : (0:ℝ) < 1 / 2)]
    rw [show Real.sqrt 3 / 2 / (1 / 2) = Real.sqrt 3 by ring]
    rw [arctan_sqrt_three]
  have hfst : (get_next_lat_lon 0 lon (6371 * Real.pi / 3) EAST).1 = lon + 60 := by
    rw [get_next_lat_lon_fst, hlat, hlon, degrees_add, degrees_radians, degrees_pi_third]
  have hsnd : (get_next_lat_lon 0 lon (6371 * Real.pi / 3) EAST).2 = 0 := by
    rw [get_next_lat_lon_snd, hlat, degrees_zero]
  exact Prod.ext hfst hsnd

/-- One due-east step of `6371·π/3` km from `(lat, lon) = (-60, 0)`: the new
longitude is `degrees (arctan (2·√3))` (≈ 73.9°) and the new latitude is
`degrees (arcsin (-(√3/4)))`. -/
theorem step_east_from_neg_sixty :
    get_next_lat_lon (-60) 0 (6371 * Real.pi / 3) EAST =
      (degrees (Real.arctan (2 * Real.sqrt 3)), degrees (Real.arcsin (-(Real.sqrt 3 / 4)))) := by
  have hsle : Real.sqrt 3 ≤ 4 := by nlinarith [sqrt3_sq, Real.sqrt_nonneg 3]
  have hlat : get_next_lat (radians (-60)) (6371 * Real.pi / 3) EAST =
      Real.arcsin (-(Real.sqrt 3 / 4)) := by
    unfold get_next_lat
    have harg : Real.sin (radians (-60)) * Real.cos (angular_distance (6371 * Real.pi / 3)) +
        Real.cos (radians (-60)) * Real.sin (angular_distance (6371 * Real.pi / 3)) *
          Real.cos EAST = -(Real.sqrt 3 / 4) := by
      rw [ad_s3, radians_neg_sixty, EAST_eq, Real.cos_pi_div_two, Real.sin_neg,
        Real.cos_neg, Real.sin_pi_div_three, Real.cos_pi_div_three]
      ring
    rw [harg]
  have hlon : get_next_lon (radians (-60)) (Real.arcsin (-(Real.sqrt 3 / 4))) (radians 0)
      (6371 * Real.pi / 3) EAST = Real.arctan (2 * Real.sqrt 3) := by
    unfold get_next_lon
    rw [ad_s3, radians_neg_sixty, radians_zero, EAST_eq, Real.sin_pi_div_two]
    rw [Real.sin_arcsin (by nlinarith [Real.sqrt_nonneg 3]) (by nlinarith [Real.sqrt_nonneg 3])]
    rw [show (1:ℝ) * Real.sin (Real.pi / 3) * Real.cos (-(Real.pi / 3)) = Real.sqrt 3 / 4 by
      rw [Real.cos_neg, Real.sin_pi_div_three, Real.cos_pi_div_three]; ring]
    rw [show Real.cos (Real.pi / 3) - Real.sin (-(Real.pi / 3)) * -(Real.sqrt 3 / 4) = 1 / 8 by
      rw [Real.sin_neg, Real.sin_pi_div_three, Real.cos_pi_div_three]
      nlinarith [sqrt3_sq]]
    rw [atan2_pos_pos (by norm_num : (0:ℝ) < 1 / 8)]
    rw [show Real.sqrt 3 / 4 / (1 / 8) = 2 * Real.sqrt 3 by ring]
    rw [zero_add]
  have hfst : (get_next_lat_lon (-60) 0 (6371 * Real.pi / 3) EAST).1 =
      degrees (Real.arctan (2 * Real.sqrt 3)) := by
    rw [get_next_lat_lon_fst, hlat, hlon]
  have hsnd : (get_next_lat_lon (-60) 0 (6371 * Real.pi / 3) EAST).2 =
      degrees (Real.arcsin (-(Real.sqrt 3 / 4))) := by
    rw [get_next_lat_lon_snd, hlat]
  exact Prod.ext hfst hsnd

/-- A southward walk with step `6371·π/3` km from `(0, 0)` towards target
latitude 0 emits the start point, overshoots to latitude -60, and stops:
two points, for any sufficient fuel. -/
theorem south_walk_eval (n : ℕ) :
    get_points_south (n + 2) 0 0 0 (6371 * Real.pi / 3) [] = some [(0, 0), (0, -60)] := by
  have h1 : ¬ ((0:ℝ) < 0) := lt_irrefl 0
  have h2 : ((-60:ℝ) < 0) := by norm_num
  show get_points_south (n + 1 + 1) 0 0 0 (6371 * Real.pi / 3) [] = some [(0, 0), (0, -60)]
  rw [get_points_south]
  simp only [step_south_from_zero, h1, if_false]
  rw [get_points_south]
  simp only [h2, if_true]
  simp

/-- An eastward walk with step `6371·π/3` km from `(0, 0)` towards target
longitude 0 emits the start point, overshoots to longitude 60, and stops. -/
theorem east_walk_eval_zero (n : ℕ) :
    get_points_east (n + 2) 0 0 0 (6371 * Real.pi / 3) [] = some [(0, 0), (60, 0)] := by
  have h1 : ¬ ((0:ℝ) > 0) := lt_irrefl 0
  have h2 : ((60:ℝ) > 0) := by norm_num
  show get_points_east (n + 1 + 1) 0 0 0 (6371 * Real.pi / 3) [] = some [(0, 0), (60, 0)]
  rw [get_points_east]
  simp only [step_east_from_zero, h1, if_false]
  rw [get_points_east]
  norm_num

/-- An eastward walk with step `6371·π/3` km from `(-60, 0)` towards any
target longitude in `[0, degrees (arctan (2·√3)))` (≈ 73.9°): the start point
and one overshooting step. -/
theorem east_walk_eval_neg_sixty (n : ℕ) (L : ℝ) (hL0 : 0 ≤ L)
    (hL1 : L < degrees (Real.arctan (2 * Real.sqrt 3))) :
    get_points_east (n + 2) (-60) 0 L (6371 * Real.pi / 3) [] =
      some [(0, -60),
        (degrees (Real.arctan (2 * Real.sqrt 3)), degrees (Real.arcsin (-(Real.sqrt 3 / 4))))] := by
  have h1 : ¬ ((0:ℝ) > L) := not_lt.2 hL0
  have h2 : degrees (Real.arctan (2 * Real.sqrt 3)) > L := hL1
  show get_points_east (n + 1 + 1) (-60) 0 L (6371 * Real.pi / 3) [] = _
  rw [get_points_east]
  simp only [step_east_from_neg_sixty, h1, if_false]
  rw [get_points_east]
  simp only [h2, if_true]
  simp

/-! ## The equal-start claim -/

/-- C3 counterexample: with start equal to target and step `6371·π/3` km,
both walks return two points, not the single start point. -/
theorem walk_equal_start_cex :
    get_points_south 2 0 0 0 (6371 * Real.pi / 3) [] = some [(0, 0), (0, -60)] ∧
    get_points_east 2 0 0 0 (6371 * Real.pi / 3) [] = some [(0, 0), (60, 0)] ∧
    (some [((0:ℝ), (0:ℝ)), ((0:ℝ), (-60:ℝ))] ≠ some ([((0:ℝ), (0:ℝ))] : List (ℝ × ℝ))) ∧
    (some [((0:ℝ), (0:ℝ)), ((60:ℝ), (0:ℝ))] ≠ some ([((0:ℝ), (0:ℝ))] : List (ℝ × ℝ))) :=
  ⟨south_walk_eval 0, east_walk_eval_zero 0, by simp, by simp⟩

/-- C3 amended: when the start latitude (longitude) equals the target, the
strict stop condition fails at the start, so a terminating southward
(eastward) walk returns the start point followed by a non-empty tail;
it never returns just the single start point.  The two walks are entirely
independent: each has its own start point, step size and fuel. -/
theorem walk_equal_start_amended (fs fe : ℕ) (lat lon latE lonE stepS stepE : ℝ)
    (rs re : List (ℝ × ℝ))
    (hs : get_points_south fs lat lon lat stepS [] = some rs)
    (he : get_points_east fe latE lonE lonE stepE [] = some re) :
    (∃ tail, rs = (lon, lat) :: tail ∧ tail ≠ []) ∧
    (∃ tail, re = (lonE, latE) :: tail ∧ tail ≠ []) :=
  ⟨south_equal_start fs lat lon stepS rs hs, east_equal_start fe latE lonE stepE re he⟩

/-- C3 amended witness at the concrete two-point walks. -/
theorem walk_equal_start_amended_witness :
    (∃ tail, ([((0:ℝ), (0:ℝ)), ((0:ℝ), (-60:ℝ))] : List (ℝ × ℝ)) = (0, 0) :: tail ∧
      tail ≠ []) ∧
    (∃ tail, ([((0:ℝ), (0:ℝ)), ((60:ℝ), (0:ℝ))] : List (ℝ × ℝ)) = (0, 0) :: tail ∧
      tail ≠ []) :=
  walk_equal_start_amended 2 2 0 0 0 0 (6371 * Real.pi / 3) (6371 * Real.pi / 3) _ _
    (south_walk_eval 0) (east_walk_eval_zero 0)

/-! ## Grid builders -/

theorem rows_east_cons (fuel : ℕ) (L s : ℝ) (a : ℝ × ℝ) (l : List (ℝ × ℝ))
    (m : List (List (ℝ × ℝ))) (h : rows_east fuel L s (a :: l) = some m) :
    ∃ row rest, get_points_east fuel a.2 a.1 L s [] = some row ∧
      rows_east fuel L s l = some rest ∧ m = row :: rest := by
  rw [rows_east] at h
  cases he : get_points_east fuel a.2 a.1 L s [] with
  | none => rw [he] at h; cases h
  | some row =>
    cases hr : rows_east fuel L s l with
    | none => rw [he, hr] at h; cases h
    | some rest =>
      rw [he, hr] at h
      simp only [Option.some.injEq] at h
      exact ⟨row, rest, rfl, rfl, h.symm⟩

theorem rows_south_cons (fuel : ℕ) (L s : ℝ) (a : ℝ × ℝ) (l : List (ℝ × ℝ))
    (m : List (List (ℝ × ℝ))) (h : rows_south fuel L s (a :: l) = some m) :
    ∃ row rest, get_points_south fuel a.2 a.1 L s [] = some row ∧
      rows_south fuel L s l = some rest ∧ m = row :: rest := by
  rw [rows_south] at h
  cases he : get_points_south fuel a.2 a.1 L s [] with
  | none => rw [he] at h; cases h
  | some row =>
    cases hr : rows_south fuel L s l with
    | none => rw [he, hr] at h; cases h
    | some rest =>
      rw [he, hr] at h
      simp only [Option.some.injEq] at h
      exact ⟨row, rest, rfl, rfl, h.symm⟩

/-- A terminating southward walk from an empty accumulator starts with the
start point. -/
theorem south_start_head (fuel : ℕ) (lat lon lat_end step : ℝ) (res : List (ℝ × ℝ))
    (h : get_points_south fuel lat lon lat_end step [] = some res) :
    ∃ tail, res = (lon, lat) :: tail := by
  obtain ⟨mid, p, hres, hhead, -, -⟩ := get_points_south_spec fuel _ _ _ _ _ _ h
  rw [List.nil_append] at hres
  subst hres
  cases mid with
  | nil => simp only [List.nil_append, List.head?_cons, Option.some.injEq] at hhead; exact ⟨[], by rw [hhead]; rfl⟩
  | cons a t => simp only [List.cons_append, List.head?_cons, Option.some.injEq] at hhead; exact ⟨t ++ [p], by rw [hhead]; rfl⟩

/-- A terminating eastward walk from an empty accumulator starts with the
start point. -/
theorem east_start_head (fuel : ℕ) (lat lon lon_end step : ℝ) (res : List (ℝ × ℝ))
    (h : get_points_east fuel lat lon lon_end step [] = some res) :
    ∃ tail, res = (lon, lat) :: tail := by
  obtain ⟨mid, p, hres, hhead, -, -⟩ := get_points_east_spec fuel _ _ _ _ _ _ h
  rw [List.nil_append] at hres
  subst hres
  cases mid with
  | nil => simp only [List.nil_append, List.head?_cons, Option.some.injEq] at hhead; exact ⟨[], by rw [hhead]; rfl⟩
  | cons a t => simp only [List.cons_append, List.head?_cons, Option.some.injEq] at hhead; exact ⟨t ++ [p], by rw [hhead]; rfl⟩

/-- Walks that stop at once because the start already satisfies the stop
condition. -/
theorem south_walk_stop (n : ℕ) (lat lon lat_end step : ℝ) (h : lat < lat_end) :
    get_points_south (n + 1) lat lon lat_end step [] = some [(lon, lat)] := by
  rw [get_points_south]
  rw [if_pos h]
  simp

theorem east_walk_stop (n : ℕ) (lat lon lon_end step : ℝ) (h : lon > lon_end) :
    get_points_east (n + 1) lat lon lon_end step [] = some [(lon, lat)] := by
  rw [get_points_east]
  rw [if_pos h]
  simp

/-- The degenerate grid with NW = SE = `(0, 0)` and step `6371·π/3` km:
a 2-by-2 matrix, one overshoot row south and one overshoot column east. -/
theorem grid_eval_degenerate :
    get_points_south_then_east 2 0 0 0 0 (6371 * Real.pi / 3) =
      some [[(0, 0), (60, 0)],
        [(0, -60),
          (degrees (Real.arctan (2 * Real.sqrt 3)), degrees (Real.arcsin (-(Real.sqrt 3 / 4))))]] := by
  unfold get_points_south_then_east
  rw [south_walk_eval 0]
  show rows_east 2 0 (6371 * Real.pi / 3) [(0, 0), (0, -60)] = _
  have he0 : get_points_east 2 0 0 0 (6371 * Real.pi / 3) [] = some [(0, 0), (60, 0)] :=
    east_walk_eval_zero 0
  have he1 : get_points_east 2 (-60) 0 0 (6371 * Real.pi / 3) [] =
      some [(0, -60),
        (degrees (Real.arctan (2 * Real.sqrt 3)), degrees (Real.arcsin (-(Real.sqrt 3 / 4))))] :=
    east_walk_eval_neg_sixty 0 0 le_rfl deg_arctan_two_sqrt_three_pos
  rw [rows_east]
  simp only [Prod.fst, Prod.snd]
  rw [he0, rows_east]
  rw [he1, rows_east]

/-- Three east steps from `(0, 0)` towards target longitude 60: the walk
visits longitudes 0, 60 and 120 before stopping. -/
theorem east_walk_eval_sixty (n : ℕ) :
    get_points_east (n + 3) 0 0 60 (6371 * Real.pi / 3) [] =
      some [(0, 0), (60, 0), (120, 0)] := by
  have h1 : ¬ ((0:ℝ) > 60) := by norm_num
  have h2 : ¬ ((60:ℝ) > 60) := lt_irrefl 60
  have h3 : ((120:ℝ) > 60) := by norm_num
  show get_points_east (n + 1 + 1 + 1) 0 0 60 (6371 * Real.pi / 3) [] = _
  rw [get_points_east]
  simp only [step_east_from_zero, h1, if_false]
  rw [get_points_east]
  norm_num
  rw [get_points_east]
  norm_num [step_east_from_zero]

/-- The grid from NW `(0, 0)` to SE `(0, 60)` with step `6371·π/3` km: the
equator row takes three points but the -60-degree row only two, because the
eastward step spans more longitude at higher absolute latitude. -/
theorem grid_eval_rect :
    get_points_south_then_east 3 0 0 0 60 (6371 * Real.pi / 3) =
      some [[(0, 0), (60, 0), (120, 0)],
        [(0, -60),
          (degrees (Real.arctan (2 * Real.sqrt 3)), degrees (Real.arcsin (-(Real.sqrt 3 / 4))))]] := by
  unfold get_points_south_then_east
  rw [south_walk_eval 1]
  show rows_east 3 60 (6371 * Real.pi / 3) [(0, 0), (0, -60)] = _
  have he0 : get_points_east 3 0 0 60 (6371 * Real.pi / 3) [] =
      some [(0, 0), (60, 0), (120, 0)] := east_walk_eval_sixty 0
  have he1 : get_points_east 3 (-60) 0 60 (6371 * Real.pi / 3) [] =
      some [(0, -60),
        (degrees (Real.arctan (2 * Real.sqrt 3)), degrees (Real.arcsin (-(Real.sqrt 3 / 4))))] :=
    east_walk_eval_neg_sixty 1 60 (by norm_num) deg_arctan_two_sqrt_three_gt_sixty
  rw [rows_east]
  simp only [Prod.fst, Prod.snd]
  rw [he0, rows_east]
  rw [he1, rows_east]

/-- C5 counterexample: with NW = SE = `(0, 0)` and step `6371·π/3` km the
grid has 2 rows (4 points, not a single point) and polygon mode yields one
quad, not zero. -/
theorem grid_degenerate_cex :
    (get_points_south_then_east 2 0 0 0 0 (6371 * Real.pi / 3)).map
      (fun m => (m.length, (get_polygons m).length)) = some (2, 1) ∧
    ((2:ℕ), (1:ℕ)) ≠ ((1:ℕ), (0:ℕ)) := by
  refine ⟨?_, by decide⟩
  rw [grid_eval_degenerate]
  simp [get_polygons, List.range_succ]

/-- C5 corrected: when NW = SE, a terminating grid is never a single point:
the strict walk conditions overshoot, so the matrix has at least two rows
and its first row starts at the start point and has at least two entries.
No quad count is claimed here: for some steps the degenerate grid comes out
ragged and the program's polygon assembler raises `IndexError` rather than
emitting quads.  The counterexample shows one quad (not zero) at a concrete
input whose 2×2 grid keeps every access in range. -/
theorem grid_degenerate_amended (fuel : ℕ) (lat lon step : ℝ) (m : List (List (ℝ × ℝ)))
    (h : get_points_south_then_east fuel lat lon lat lon step = some m) :
    ∃ r0 r1 rest t0, m = r0 :: r1 :: rest ∧ r0 = (lon, lat) :: t0 ∧ t0 ≠ [] := by
  unfold get_points_south_then_east at h
  cases hs : get_points_south fuel lat lon lat step [] with
  | none => rw [hs] at h; cases h
  | some ps =>
    rw [hs] at h
    obtain ⟨tail, hps, htail⟩ := south_equal_start fuel lat lon step ps hs
    subst hps
    obtain ⟨row0, rest0, he0, hr0, hm⟩ := rows_east_cons fuel lon step (lon, lat) tail m h
    obtain ⟨t0, hrow0, ht0⟩ := east_equal_start fuel lat lon step row0 he0
    cases tail with
    | nil => exact absurd rfl htail
    | cons q tail2 =>
      obtain ⟨row1, rest1, he1, hr1, hrest⟩ := rows_east_cons fuel lon step q tail2 rest0 hr0
      exact ⟨row0, row1, rest1, t0, by rw [hm, hrest], hrow0, ht0⟩

/-- C5 amended witness at the concrete degenerate grid. -/
theorem grid_degenerate_amended_witness :
    ∃ r0 r1 rest t0,
      ([[(0, 0), (60, 0)],
        [(0, -60),
          (degrees (Real.arctan (2 * Real.sqrt 3)),
            degrees (Real.arcsin (-(Real.sqrt 3 / 4))))]] : List (List (ℝ × ℝ))) =
        r0 :: r1 :: rest ∧ r0 = ((0:ℝ), (0:ℝ)) :: t0 ∧ t0 ≠ [] :=
  grid_degenerate_amended 2 0 0 (6371 * Real.pi / 3) _ grid_eval_degenerate

/-- C7 counterexample: a produced matrix whose rows have lengths 3 and 2 —
the builders do not guarantee a rectangular matrix. -/
theorem grid_rect_cex :
    (get_points_south_then_east 3 0 0 0 60 (6371 * Real.pi / 3)).map
      (fun m => m.map List.length) = some [3, 2] ∧ (3:ℕ) ≠ 2 := by
  refine ⟨?_, by decide⟩
  rw [grid_eval_rect]
  rfl

/-- Evaluation of the degenerate-stop grids used as witnesses: both walks
stop at once, so each builder returns the single-point matrix. -/
theorem grid_se_stop_eval :
    get_points_south_then_east 1 0 0 1 (-1) 5 = some [[(0, 0)]] := by
  unfold get_points_south_then_east
  rw [south_walk_stop 0 0 0 1 5 (by norm_num)]
  show rows_east 1 (-1) 5 [(0, 0)] = _
  rw [rows_east]
  simp only [Prod.fst, Prod.snd]
  rw [east_walk_stop 0 0 0 (-1) 5 (by norm_num), rows_east]

theorem grid_es_stop_eval :
    get_points_east_then_south 1 0 0 1 (-1) 5 = some [[(0, 0)]] := by
  unfold get_points_east_then_south
  rw [east_walk_stop 0 0 0 (-1) 5 (by norm_num)]
  show rows_south 1 1 5 [(0, 0)] = _
  rw [rows_south]
  simp only [Prod.fst, Prod.snd]
  rw [south_walk_stop 0 0 0 1 5 (by norm_num), rows_south]

/-- C7 corrected: a terminating grid from either builder is non-empty and its
first row starts with the bounding-box start point; but rows need not share a
length (see the counterexample), so rectangularity is not an invariant. -/
theorem grid_row_head_amended (f1 f2 : ℕ)
    (lat1 lon1 latEnd1 lonEnd1 s1 lat2 lon2 latEnd2 lonEnd2 s2 : ℝ)
    (m1 m2 : List (List (ℝ × ℝ)))
    (h1 : get_points_south_then_east f1 lat1 lon1 latEnd1 lonEnd1 s1 = some m1)
    (h2 : get_points_east_then_south f2 lat2 lon2 latEnd2 lonEnd2 s2 = some m2) :
    (∃ row rest tail, m1 = row :: rest ∧ row = (lon1, lat1) :: tail) ∧
    (∃ row rest tail, m2 = row :: rest ∧ row = (lon2, lat2) :: tail) := by
  constructor
  · unfold get_points_south_then_east at h1
    cases hs : get_points_south f1 lat1 lon1 latEnd1 s1 [] with
    | none => rw [hs] at h1; cases h1
    | some ps =>
      rw [hs] at h1
      obtain ⟨tail, hps⟩ := south_start_head f1 lat1 lon1 latEnd1 s1 ps hs
      subst hps
      obtain ⟨row, rest, he, hr, hm⟩ := rows_east_cons f1 lonEnd1 s1 (lon1, lat1) tail m1 h1
      obtain ⟨t, ht⟩ := east_start_head f1 lat1 lon1 lonEnd1 s1 row he
      exact ⟨row, rest, t, hm, ht⟩
  · unfold get_points_east_then_south at h2
    cases hs : get_points_east f2 lat2 lon2 lonEnd2 s2 [] with
    | none => rw [hs] at h2; cases h2
    | some ps =>
      rw [hs] at h2
      obtain ⟨tail, hps⟩ := east_start_head f2 lat2 lon2 lonEnd2 s2 ps hs
      subst hps
      obtain ⟨row, rest, he, hr, hm⟩ := rows_south_cons f2 latEnd2 s2 (lon2, lat2) tail m2 h2
      obtain ⟨t, ht⟩ := south_start_head f2 lat2 lon2 latEnd2 s2 row he
      exact ⟨row, rest, t, hm, ht⟩

/-- C7 amended witness at the single-point grids. -/
theorem grid_row_head_amended_witness :
    (∃ row rest tail, ([[(0, 0)]] : List (List (ℝ × ℝ))) = row :: rest ∧
      row = ((0:ℝ), (0:ℝ)) :: tail) ∧
    (∃ row rest tail, ([[(0, 0)]] : List (List (ℝ × ℝ))) = row :: rest ∧
      row = ((0:ℝ), (0:ℝ)) :: tail) :=
  grid_row_head_amended 1 1 0 0 1 (-1) 5 0 0 1 (-1) 5 _ _ grid_se_stop_eval grid_es_stop_eval

/-! ## Polygon assembler and encoder -/

theorem flatMap_range_length_uniform {β : Type} (g : ℕ → List β) (n m : ℕ)
    (h : ∀ i, i < n → (g i).length = m) :
    ((List.range n).flatMap g).length = n * m := by
  rw [List.length_flatMap]
  induction n with
  | zero => simp
  | succ k ih =>
    rw [List.range_succ, List.map_append, List.sum_append,
      ih (fun i hi => h i (Nat.lt_succ_of_lt hi))]
    simp [h k (Nat.lt_succ_self k), Nat.succ_mul]

theorem flatMap_range_getD_uniform {β : Type} (g : ℕ → List β) (d : β) :
    ∀ (n m r c : ℕ), (∀ i, i < n → (g i).length = m) → r < n → c < m →
    ((List.range n).flatMap g).getD (r * m + c) d = (g r).getD c d := by
  intro n
  induction n with
  | zero =>
    intro m r c h hr hc
    exact absurd hr (Nat.not_lt_zero r)
  | succ k ih =>
    intro m r c h hr hc
    rw [List.range_succ, List.flatMap_append]
    have hlen : ((List.range k).flatMap g).length = k * m :=
      flatMap_range_length_uniform g k m (fun i hi => h i (Nat.lt_succ_of_lt hi))
    rcases Nat.lt_or_ge r k with hrk | hrk
    · rw [List.getD_append _ _ _ _ ?_]
      · exact ih m r c (fun i hi => h i (Nat.lt_succ_of_lt hi)) hrk hc
      · rw [hlen]
        calc r * m + c < r * m + m := by omega
          _ = (r + 1) * m := by ring
          _ ≤ k * m := Nat.mul_le_mul_right m hrk
    · have hrek : r = k := Nat.le_antisymm (Nat.lt_succ_iff.1 hr) hrk
      subst hrek
      rw [List.getD_append_right _ _ _ _ (by rw [hlen]; exact Nat.le_add_right _ _)]
      rw [hlen, show r * m + c - r * m = c from by omega]
      simp

/-- On a matrix whose rows all have length `C`, the assembler emits
`(rows - 1) * (C - 1)` quads. -/
theorem get_polygons_length {α : Type} [Inhabited α] (points : List (List α)) (C : ℕ)
    (hC : ∀ row ∈ points, row.length = C) :
    (get_polygons points).length = (points.length - 1) * (C - 1) := by
  unfold get_polygons
  apply flatMap_range_length_uniform
  intro i hi
  have hiLen : i < points.length := by omega
  rw [List.length_map, List.length_range, List.getD_eq_getElem _ _ hiLen,
    hC _ (List.getElem_mem hiLen)]

/-- C4: on a rectangular `R×C` matrix with `R, C ≥ 1`, `get_polygons` returns
exactly `(R-1)·(C-1)` quads, and the quad for row `r`, column `c` (rows
outer, columns inner) is
`[m[r][c], m[r+1][c], m[r+1][c+1], m[r][c+1]]`. -/
theorem polygons_rectangular {α : Type} [Inhabited α] (points : List (List α)) (R C : ℕ)
    (hR : points.length = R) (hC : ∀ row ∈ points, row.length = C)
    (hR1 : 1 ≤ R) (hC1 : 1 ≤ C) :
    (get_polygons points).length = (R - 1) * (C - 1) ∧
    ∀ r c, r < R - 1 → c < C - 1 →
      (get_polygons points).getD (r * (C - 1) + c) [] =
        [(points.getD r []).getD c default, (points.getD (r + 1) []).getD c default,
         (points.getD (r + 1) []).getD (c + 1) default,
         (points.getD r []).getD (c + 1) default] := by
  have hg : ∀ i, i < points.length - 1 →
      ((List.range ((points.getD i []).length - 1)).map
        (fun c => get_square_at_rc i c points)).length = C - 1 := by
    intro i hi
    have hiLen : i < points.length := by omega
    rw [List.length_map, List.length_range, List.getD_eq_getElem _ _ hiLen,
      hC _ (List.getElem_mem hiLen)]
  constructor
  · rw [get_polygons_length points C hC, hR]
  · intro r c hr hc
    unfold get_polygons
    rw [flatMap_range_getD_uniform _ _ _ _ _ _ hg (by omega) hc]
    have hrLen : r < points.length := by omega
    have hcLen : c < ((List.range ((points.getD r []).length - 1)).map
        (fun c => get_square_at_rc r c points)).length := by
      rw [hg r (by omega)]; exact hc
    rw [List.getD_eq_getElem _ _ hcLen, List.getElem_map, List.getElem_range]
    rfl

/-- C4 witness on the concrete 2×2 matrix `[[1, 2], [3, 4]]`. -/
theorem polygons_rectangular_witness :
    (get_polygons ([[1, 2], [3, 4]] : List (List ℕ))).length = (2 - 1) * (2 - 1) ∧
    ∀ r c, r < 2 - 1 → c < 2 - 1 →
      (get_polygons ([[1, 2], [3, 4]] : List (List ℕ))).getD (r * (2 - 1) + c) [] =
        [(([[1, 2], [3, 4]] : List (List ℕ)).getD r []).getD c default,
         (([[1, 2], [3, 4]] : List (List ℕ)).getD (r + 1) []).getD c default,
         (([[1, 2], [3, 4]] : List (List ℕ)).getD (r + 1) []).getD (c + 1) default,
         (([[1, 2], [3, 4]] : List (List ℕ)).getD r []).getD (c + 1) default] :=
  polygons_rectangular [[1, 2], [3, 4]] 2 2 rfl (by decide) (by decide) (by decide)

theorem foldl_append_singleton {α : Type} (r : List α) :
    ∀ acc : List α, r.foldl (fun a c => a ++ [c]) acc = acc ++ r := by
  induction r with
  | nil => intro acc; simp
  | cons a t ih =>
    intro acc
    rw [List.foldl_cons, ih]
    simp

theorem double_foldl_flatten {α : Type} (points : List (List α)) :
    ∀ acc : List α,
      points.foldl (fun coords r => r.foldl (fun coords2 c => coords2 ++ [c]) coords) acc =
        acc ++ points.flatten := by
  induction points with
  | nil => intro acc; simp
  | cons r ps ih =>
    intro acc
    rw [List.foldl_cons, foldl_append_singleton, ih]
    simp

theorem map_length_replicate {α : Type} :
    ∀ (points : List (List α)) (C : ℕ), (∀ row ∈ points, row.length = C) →
      points.map List.length = List.replicate points.length C := by
  intro points
  induction points with
  | nil => intro C h; simp
  | cons r ps ih =>
    intro C h
    rw [List.map_cons, List.length_cons, List.replicate_succ,
      ih C (fun row hm => h row (List.mem_cons_of_mem r hm)), h r (List.mem_cons_self r ps)]

/-- C6: the point encoder emits a `MultiPoint` whose coordinates are the
row-major flattening of the matrix (`R·C` entries on a rectangular `R×C`
matrix), and the polygon encoder emits a `MultiPolygon` holding the
`(R-1)·(C-1)` quads of `get_polygons`. -/
theorem encoder_counts {α : Type} [Inhabited α] (points : List (List α)) (R C : ℕ)
    (hR : points.length = R) (hC : ∀ row ∈ points, row.length = C) :
    get_geo_json_points points = GeoJsonDoc.multiPoint points.flatten ∧
    points.flatten.length = R * C ∧
    get_geo_json_polys points = GeoJsonDoc.multiPolygon [get_polygons points] ∧
    (get_polygons points).length = (R - 1) * (C - 1) := by
  refine ⟨?_, ?_, rfl, ?_⟩
  · unfold get_geo_json_points
    rw [double_foldl_flatten points []]
    rfl
  · rw [List.length_flatten, map_length_replicate points C hC, List.sum_const_nat, hR]
  · rw [get_polygons_length points C hC, hR]

/-- C6 witness on the concrete 2×2 matrix `[[1, 2], [3, 4]]`. -/
theorem encoder_counts_witness :
    get_geo_json_points ([[1, 2], [3, 4]] : List (List ℕ)) =
      GeoJsonDoc.multiPoint ([[1, 2], [3, 4]] : List (List ℕ)).flatten ∧
    (([[1, 2], [3, 4]] : List (List ℕ)).flatten).length = 2 * 2 ∧
    get_geo_json_polys ([[1, 2], [3, 4]] : List (List ℕ)) =
      GeoJsonDoc.multiPolygon [get_polygons ([[1, 2], [3, 4]] : List (List ℕ))] ∧
    (get_polygons ([[1, 2], [3, 4]] : List (List ℕ))).length = (2 - 1) * (2 - 1) :=
  encoder_counts [[1, 2], [3, 4]] 2 2 rfl (by decide)

/-! ## Termination of the walks -/

theorem ad_pi : angular_distance (6371 * Real.pi) = Real.pi := by
  unfold angular_distance RADIUS_OF_EARTH
  norm_num

/-- A due-south step of half the earth's circumference from the equator lands
back on the equator: latitude 0 is a fixed point of this step. -/
theorem step_south_pi_snd (lon : ℝ) :
    (get_next_lat_lon 0 lon (6371 * Real.pi) SOUTH).2 = 0 := by
  rw [get_next_lat_lon_snd]
  unfold get_next_lat
  have harg : Real.sin (radians 0) * Real.cos (angular_distance (6371 * Real.pi)) +
      Real.cos (radians 0) * Real.sin (angular_distance (6371 * Real.pi)) * Real.cos SOUTH
      = 0 := by
    rw [ad_pi, radians_zero, SOUTH_eq, Real.sin_zero, Real.sin_pi]
    ring
  rw [harg, Real.arcsin_zero, degrees_zero]

/-- From the equator with step `6371·π` km the southward walk towards target
latitude -45 loops forever: the latitude stays 0, so no fuel suffices. -/
theorem south_diverges_aux :
    ∀ (fuel : ℕ) (lon : ℝ) (acc : List (ℝ × ℝ)),
      get_points_south fuel 0 lon (-45) (6371 * Real.pi) acc = none := by
  intro fuel
  induction fuel with
  | zero => intro lon acc; rfl
  | succ n ih =>
    intro lon acc
    have h0 : ¬ ((0:ℝ) < -45) := by norm_num
    rw [get_points_south]
    simp only [step_south_pi_snd, h0, if_false]
    exact ih _ _

/-- C10 counterexample: with step `6371·π` km (> 0), start latitude 0 (inside
`[-90, 90]`) and target latitude -45 (> -90), the southward walk does not
terminate for any fuel. -/
theorem walk_termination_cex :
    ¬ ∃ (fuel : ℕ) (res : List (ℝ × ℝ)),
      get_points_south fuel 0 0 (-45) (6371 * Real.pi) [] = some res := by
  rintro ⟨fuel, res, h⟩
  rw [south_diverges_aux fuel 0 []] at h
  cases h

/-- Southward termination: with a positive angular step whose target latitude
is at least `ad - π/2` (in radians) and a start latitude at most `π/2`, every
step is an exact `ad` decrease while the walk continues, so some fuel
suffices. -/
theorem south_term_aux (lat_end step : ℝ) (had : 0 < angular_distance step)
    (hend : angular_distance step - Real.pi / 2 ≤ radians lat_end) :
    ∀ (k : ℕ) (lat lon : ℝ) (acc : List (ℝ × ℝ)),
    radians lat ≤ Real.pi / 2 →
    radians lat < radians lat_end + k * angular_distance step →
    ∃ res, get_points_south (k + 1) lat lon lat_end step acc = some res := by
  intro k
  induction k with
  | zero =>
    intro lat lon acc hlat hk
    have hlt : lat < lat_end := by
      apply radians_lt_radians.1
      simpa using hk
    refine ⟨acc ++ [(lon, lat)], ?_⟩
    rw [get_points_south]
    rw [if_pos hlt]
  | succ n ih =>
    intro lat lon acc hlat hk
    by_cases hlt : lat < lat_end
    · refine ⟨acc ++ [(lon, lat)], ?_⟩
      rw [get_points_south]
      rw [if_pos hlt]
    · have hge : radians lat_end ≤ radians lat := radians_le_radians.2 (not_lt.1 hlt)
      have h3 : -(Real.pi / 2) ≤ radians lat - angular_distance step := by linarith
      have h4 : radians lat - angular_distance step ≤ Real.pi / 2 := by linarith
      have hstep : (get_next_lat_lon lat lon step SOUTH).2 =
          degrees (radians lat - angular_distance step) := by
        rw [get_next_lat_lon_snd, get_next_lat_south _ _ h3 h4]
      have hnew : radians ((get_next_lat_lon lat lon step SOUTH).2) =
          radians lat - angular_distance step := by
        rw [hstep, radians_degrees]
      have hk2 : radians ((get_next_lat_lon lat lon step SOUTH).2) <
          radians lat_end + n * angular_distance step := by
        rw [hnew]
        push_cast at hk
        linarith
      obtain ⟨res, hres⟩ := ih (get_next_lat_lon lat lon step SOUTH).2
        (get_next_lat_lon lat lon step SOUTH).1 (acc ++ [(lon, lat)])
        (by rw [hnew]; linarith) hk2
      refine ⟨res, ?_⟩
      rw [get_points_south]
      rw [if_neg hlt]
      exact hres

/-- One eastward step away from the poles: the new latitude stays strictly
inside `(-π/2, π/2)` and the longitude advances by at least the angular
distance. -/
theorem east_step_props (lat lon step : ℝ)
    (had : 0 < angular_distance step) (hadlt : angular_distance step < Real.pi / 2)
    (h1 : -(Real.pi / 2) < radians lat) (h2 : radians lat < Real.pi / 2) :
    (-(Real.pi / 2) < radians ((get_next_lat_lon lat lon step EAST).2) ∧
      radians ((get_next_lat_lon lat lon step EAST).2) < Real.pi / 2) ∧
    radians lon + angular_distance step ≤ radians ((get_next_lat_lon lat lon step EAST).1) := by
  have hpi := Real.pi_pos
  have hcosad : 0 < Real.cos (angular_distance step) :=
    Real.cos_pos_of_mem_Ioo ⟨by linarith, hadlt⟩
  have hcosLr : 0 < Real.cos (radians lat) := Real.cos_pos_of_mem_Ioo ⟨h1, h2⟩
  have hsinad : 0 < Real.sin (angular_distance step) :=
    Real.sin_pos_of_pos_of_lt_pi had (by linarith)
  have hcosad1 : Real.cos (angular_distance step) < 1 := by
    have h := Real.cos_lt_cos_of_nonneg_of_le_pi (le_refl 0) (by linarith) had
    rwa [Real.cos_zero] at h
  have hsin1 : Real.sin (radians lat) ≤ 1 := Real.sin_le_one _
  have hsin2 : -1 ≤ Real.sin (radians lat) := Real.neg_one_le_sin _
  have hprod1 : Real.sin (radians lat) * Real.cos (angular_distance step) < 1 := by nlinarith
  have hprod2 : -1 < Real.sin (radians lat) * Real.cos (angular_distance step) := by nlinarith
  have hlat2 : get_next_lat (radians lat) step EAST =
      Real.arcsin (Real.sin (radians lat) * Real.cos (angular_distance step)) := by
    unfold get_next_lat
    rw [EAST_eq, Real.cos_pi_div_two, mul_zero, add_zero]
  constructor
  · rw [get_next_lat_lon_snd, hlat2, radians_degrees]
    exact ⟨Real.neg_pi_div_two_lt_arcsin.2 hprod2, Real.arcsin_lt_pi_div_two.2 hprod1⟩
  · rw [get_next_lat_lon_fst, hlat2, radians_degrees]
    unfold get_next_lon
    rw [EAST_eq, Real.sin_pi_div_two, one_mul]
    rw [Real.sin_arcsin (by linarith) (by linarith)]
    have hxval : Real.cos (angular_distance step) -
        Real.sin (radians lat) * (Real.sin (radians lat) * Real.cos (angular_distance step)) =
        Real.cos (angular_distance step) * (Real.cos (radians lat) * Real.cos (radians lat)) := by
      linear_combination (-(Real.cos (angular_distance step))) *
        Real.sin_sq_add_cos_sq (radians lat)
    rw [hxval]
    have hxpos : 0 < Real.cos (angular_distance step) *
        (Real.cos (radians lat) * Real.cos (radians lat)) :=
      mul_pos hcosad (mul_pos hcosLr hcosLr)
    rw [atan2_pos_pos hxpos]
    have harg : Real.sin (angular_distance step) * Real.cos (radians lat) /
        (Real.cos (angular_distance step) * (Real.cos (radians lat) * Real.cos (radians lat))) =
        Real.sin (angular_distance step) /
          (Real.cos (angular_distance step) * Real.cos (radians lat)) := by
      field_simp
      ring
    rw [harg]
    have htan : Real.tan (angular_distance step) ≤
        Real.sin (angular_distance step) /
          (Real.cos (angular_distance step) * Real.cos (radians lat)) := by
      rw [Real.tan_eq_sin_div_cos, div_le_div_iff₀ hcosad (mul_pos hcosad hcosLr)]
      have hcle : Real.cos (radians lat) ≤ 1 := Real.cos_le_one _
      nlinarith [mul_nonneg (mul_pos hsinad hcosad).le (sub_nonneg.2 hcle)]
    have hmono := Real.arctan_strictMono.monotone htan
    rw [Real.arctan_tan (by linarith) hadlt] at hmono
    linarith

/-- Eastward termination away from the poles with a positive angular step
below `π/2`: each step advances the longitude by at least the step, so some
fuel suffices. -/
theorem east_term_aux (lon_end step : ℝ) (had : 0 < angular_distance step)
    (hadlt : angular_distance step < Real.pi / 2) :
    ∀ (k : ℕ) (lat lon : ℝ) (acc : List (ℝ × ℝ)),
    -(Real.pi / 2) < radians lat → radians lat < Real.pi / 2 →
    radians lon_end < radians lon + k * angular_distance step →
    ∃ res, get_points_east (k + 1) lat lon lon_end step acc = some res := by
  intro k
  induction k with
  | zero =>
    intro lat lon acc h1 h2 hk
    have hlt : lon > lon_end := radians_lt_radians.1 (by simpa using hk)
    refine ⟨acc ++ [(lon, lat)], ?_⟩
    rw [get_points_east]
    rw [if_pos hlt]
  | succ n ih =>
    intro lat lon acc h1 h2 hk
    by_cases hlt : lon > lon_end
    · refine ⟨acc ++ [(lon, lat)], ?_⟩
      rw [get_points_east]
      rw [if_pos hlt]
    · obtain ⟨⟨hn1, hn2⟩, hlon⟩ := east_step_props lat lon step had hadlt h1 h2
      have hk2 : radians lon_end < radians ((get_next_lat_lon lat lon step EAST).1) +
          n * angular_distance step := by
        push_cast at hk
        linarith
      obtain ⟨res, hres⟩ := ih (get_next_lat_lon lat lon step EAST).2
        (get_next_lat_lon lat lon step EAST).1 (acc ++ [(lon, lat)]) hn1 hn2 hk2
      refine ⟨res, ?_⟩
      rw [get_points_east]
      rw [if_neg hlt]
      exact hres

/-- C10 corrected: termination does hold for small enough steps, with the
two walks entirely independent (each has its own start, target and step).
Southward: a positive angular step `adS` with `adS - π/2 ≤ radians targetLat`
and start latitude at most 90° terminates.  Eastward: a positive angular
step below `π/2` from a start latitude strictly between the poles terminates
for every target longitude.  (Without these bounds the walks can loop
forever, see the counterexample.) -/
theorem walk_termination_amended (latS lonS lat_end stepS latE lonE lon_end stepE : ℝ)
    (hs1 : 0 < angular_distance stepS)
    (hsEnd : angular_distance stepS - Real.pi / 2 ≤ radians lat_end)
    (hlatS : radians latS ≤ Real.pi / 2)
    (he1 : 0 < angular_distance stepE) (he2 : angular_distance stepE < Real.pi / 2)
    (hlatE1 : -(Real.pi / 2) < radians latE) (hlatE2 : radians latE < Real.pi / 2) :
    (∃ fuel res, get_points_south fuel latS lonS lat_end stepS [] = some res) ∧
    (∃ fuel res, get_points_east fuel latE lonE lon_end stepE [] = some res) := by
  constructor
  · obtain ⟨k, hk⟩ := exists_nat_gt ((radians latS - radians lat_end) / angular_distance stepS)
    have hkk : radians latS < radians lat_end + k * angular_distance stepS := by
      rw [div_lt_iff₀ hs1] at hk
      linarith
    obtain ⟨res, h⟩ := south_term_aux lat_end stepS hs1 hsEnd k latS lonS [] hlatS hkk
    exact ⟨k + 1, res, h⟩
  · obtain ⟨k, hk⟩ := exists_nat_gt ((radians lon_end - radians lonE) / angular_distance stepE)
    have hkk : radians lon_end < radians lonE + k * angular_distance stepE := by
      rw [div_lt_iff₀ he1] at hk
      linarith
    obtain ⟨res, h⟩ := east_term_aux lon_end stepE he1 he2 k latE lonE [] hlatE1 hlatE2 hkk
    exact ⟨k + 1, res, h⟩

/-- C10 amended witness.  South: step `6371·π/2` km (angular distance exactly
`π/2`, a case outside the east bound) from latitude 0 towards target 45.
East: step 6371 km (angular distance 1) from `(0, 0)` towards longitude 1. -/
theorem walk_termination_amended_witness :
    (∃ fuel res, get_points_south fuel 0 0 45 (6371 * Real.pi / 2) [] = some res) ∧
    (∃ fuel res, get_points_east fuel 0 0 1 6371 [] = some res) := by
  have hadS : angular_distance (6371 * Real.pi / 2) = Real.pi / 2 := by
    unfold angular_distance RADIUS_OF_EARTH
    norm_num
    ring
  have hadE : angular_distance 6371 = 1 := by
    unfold angular_distance RADIUS_OF_EARTH
    norm_num
  have hr0 : radians 0 = 0 := radians_zero
  have hpi3 := Real.pi_gt_three
  refine walk_termination_amended 0 0 45 (6371 * Real.pi / 2) 0 0 1 6371 ?_ ?_ ?_ ?_ ?_ ?_ ?_
  · rw [hadS]; linarith
  · rw [hadS]
    unfold radians
    nlinarith
  · rw [hr0]; linarith
  · rw [hadE]; norm_num
  · rw [hadE]; linarith
  · rw [hr0]; linarith
  · rw [hr0]; linarith

end GridGen
